import Mathlib

/-!
Verification of the approval-checking core of the polkadot approval-voting
subsystem (`node/core/approval-voting/src/approval_checking.rs`), via a
shallow embedding of `check_approval` and `tranches_to_approve` over lists
of booleans (bitfields) and natural numbers (ticks, tranches, counters).
-/

namespace ApprovalChecking

/-- The required tranches of assignments needed to determine whether a
candidate is approved (`RequiredTranches` in the source). -/
inductive RequiredTranches where
  | All : RequiredTranches
  | Pending (tranche : Nat) : RequiredTranches
  | Exact (tranche : Nat) (noShows : Nat) : RequiredTranches
deriving DecidableEq, Repr

/-- A tranche entry: the tranche index, together with the ordered sequence of
(validator index, observation tick) assignments recorded at that tranche. -/
structure TrancheEntry where
  tranche : Nat
  assignments : List (Nat × Nat)
deriving DecidableEq, Repr

/-- Per-(block, candidate) approval entry: the ordered tranche list and the
assignment bitfield (one bit per validator). -/
structure ApprovalEntry where
  tranches : List TrancheEntry
  assignments : List Bool
deriving DecidableEq, Repr

/-- Per-candidate entry: the approval bitfield, one bit per validator. -/
structure CandidateEntry where
  approvals : List Bool
deriving DecidableEq, Repr

/-- Number of set bits of a bitfield (`count_ones` in the source). -/
def countOnes (l : List Bool) : Nat := l.count true

/-- Bitwise AND of two bitfields (`&=` on bit slices in the source). -/
def bitAnd (a b : List Bool) : List Bool := List.zipWith (fun x y => x && y) a b

/-- Modelled from the spec: `ApprovalEntry::n_validators` lives in
`persisted_entries.rs`, which is not part of the sources; per the data model
the assignment bitfield has length `n_validators`. -/
def ApprovalEntry.n_validators (e : ApprovalEntry) : Nat := e.assignments.length

/-- Modelled from the spec: `ApprovalEntry::assignments_up_to` lives in
`persisted_entries.rs`, which is not part of the sources. Per the spec it
returns the assignment bitfield restricted to validators whose assignment
tranche is `≤ t` (bit 0 for validators with no assignment). -/
def ApprovalEntry.assignments_up_to (e : ApprovalEntry) (t : Nat) : List Bool :=
  (List.range e.n_validators).map (fun v =>
    e.tranches.any (fun te => decide (te.tranche ≤ t) &&
      te.assignments.any (fun a => decide (a.1 = v))))

/-- `check_approval`: check the approval of a candidate under a
`RequiredTranches` verdict. -/
def check_approval (candidate : CandidateEntry) (approval : ApprovalEntry)
    (required : RequiredTranches) : Bool :=
  match required with
  | .Pending _ => false
  | .All =>
    let approvals := candidate.approvals
    decide (3 * countOnes approvals > 2 * approvals.length)
  | .Exact tranche no_shows =>
    let assigned_mask := approval.assignments_up_to tranche
    let approvals := candidate.approvals
    let n_assigned := countOnes assigned_mask
    let masked := bitAnd assigned_mask approvals
    let n_approved := countOnes masked
    decide (n_approved + no_shows ≥ n_assigned)

/-- The internal walk state of `tranches_to_approve`: either still counting
initial assignments `(assignments, no-shows)`, or covering no-shows
`(assignments, covered no-shows, covering no-shows, uncovered no-shows)`. -/
inductive State where
  | InitialCount (assignments : Nat) (noShows : Nat) : State
  | CoverNoShows (total : Nat) (covered : Nat) (covering : Nat) (uncovered : Nat) : State
deriving DecidableEq, Repr

/-- `State::output`: the interim verdict computed from a walk state after a
tranche has been processed. -/
def State.output (s : State) (tranche tranche_now needed_approvals n_validators : Nat) :
    RequiredTranches :=
  match s with
  | .InitialCount assignments no_shows =>
    if assignments ≥ needed_approvals ∧ no_shows = 0 then
      .Exact tranche 0
    else
      if no_shows = 0 then .Pending tranche_now
      else if assignments < needed_approvals then .Pending tranche_now
      else .Pending (tranche + no_shows)
  | .CoverNoShows total covered covering uncovered =>
    if covering = 0 ∧ uncovered = 0 then .Exact tranche covered
    else if total + covering + uncovered ≥ n_validators then .All
    else .Pending (tranche + (covering + uncovered))

/-- The number of no-shows freshly detected in a tranche: assignments whose
grace period has expired and whose validator has no approval bit set (bits
out of range count as unset). -/
def noShowCount (t : TrancheEntry) (approvals : List Bool)
    (no_show_duration tick_now : Nat) : Nat :=
  (t.assignments.filter (fun a =>
    decide (a.2 + no_show_duration ≤ tick_now) &&
      (((approvals.get? a.1).map (fun b => !b)).getD true))).length

/-- The state transition performed for one tranche inside the scan closure of
`tranches_to_approve`, given the tranche's assignment count `n_assignments`
and its freshly detected no-show count `no_shows`. -/
def stepState (s : State) (n_assignments no_shows needed_approvals : Nat) : State :=
  match s with
  | .InitialCount total_assignments no_shows_so_far =>
    let no_shows := no_shows + no_shows_so_far
    let total_assignments := total_assignments + n_assignments
    if total_assignments ≥ needed_approvals then
      if no_shows = 0 then
        .InitialCount total_assignments 0
      else
        .CoverNoShows total_assignments 0 no_shows 0
    else
      .InitialCount total_assignments no_shows
  | .CoverNoShows total_assignments covered covering uncovered =>
    let uncovered := no_shows + uncovered
    let total_assignments := total_assignments + n_assignments
    if n_assignments = 0 then
      .CoverNoShows total_assignments covered covering uncovered
    else if covering = 1 then
      .CoverNoShows total_assignments (covered + 1) uncovered 0
    else
      .CoverNoShows total_assignments (covered + 1) (covering - 1) uncovered

/-- The scan over the (already `take_while`-restricted) tranche list. Returns
the list of states consumed by the iterations that ran, together with the
last interim verdict produced (`None` when no iteration produced one). The
`Option State` threads the early-exit: it is wiped to `none` when an `Exact`
or `All` verdict terminates the walk. -/
def walkAux (tranches : List TrancheEntry) (approvals : List Bool)
    (tranche_now tick_now no_show_duration needed_approvals n_validators : Nat)
    (state : Option State) (acc : Option RequiredTranches) :
    List State × Option RequiredTranches :=
  match tranches with
  | [] => ([], acc)
  | t :: rest =>
    match state with
    | none => ([], acc)
    | some s =>
      let n_assignments := t.assignments.length
      let no_shows := noShowCount t approvals no_show_duration tick_now
      let s' := stepState s n_assignments no_shows needed_approvals
      let output := State.output s' t.tranche tranche_now needed_approvals n_validators
      let state' : Option State :=
        match output with
        | .Exact _ _ => none
        | .All => none
        | .Pending _ => some s'
      let r := walkAux rest approvals tranche_now tick_now no_show_duration
        needed_approvals n_validators state' (some output)
      (s :: r.1, r.2)

/-- `tranches_to_approve`: determine the amount of tranches of assignments
needed to determine approval of a candidate. -/
def tranches_to_approve (approval_entry : ApprovalEntry) (approvals : List Bool)
    (tranche_now block_tick no_show_duration needed_approvals : Nat) :
    RequiredTranches :=
  let tick_now := tranche_now + block_tick
  let n_validators := approval_entry.n_validators
  let relevant := approval_entry.tranches.takeWhile (fun t => decide (t.tranche ≤ tranche_now))
  (walkAux relevant approvals tranche_now tick_now no_show_duration needed_approvals
    n_validators (some (.InitialCount 0 0)) none).2.getD (.Pending tranche_now)

end ApprovalChecking

namespace ApprovalChecking

/-- C8: `check_approval` with a `Pending` verdict always returns `false`. -/
theorem check_approval_pending_false (c : CandidateEntry) (a : ApprovalEntry) (u : Nat) :
    check_approval c a (.Pending u) = false := rfl

/-- C4: `check_approval` with verdict `All` returns `true` iff
`3 * popcount(approvals) > 2 * len(approvals)`; in particular it returns
`false` on a length-0 approval bitfield. -/
theorem check_approval_all_supermajority (c : CandidateEntry) (a : ApprovalEntry) :
    (check_approval c a .All = true ↔
      3 * countOnes c.approvals > 2 * c.approvals.length) ∧
    (c.approvals.length = 0 → check_approval c a .All = false) := by
  constructor
  · simp [check_approval]
  · intro h
    simp [check_approval, countOnes, List.length_eq_zero.mp h]

/-- C4 witness: evaluation at a concrete candidate with an empty approval
bitfield. -/
theorem check_approval_all_supermajority_witness :
    (⟨[]⟩ : CandidateEntry).approvals.length = 0 ∧
      check_approval ⟨[]⟩ ⟨[], []⟩ .All = false :=
  ⟨by decide, (check_approval_all_supermajority ⟨[]⟩ ⟨[], []⟩).2 (by decide)⟩

/-- C2: from a `CoverNoShows` state, the interim verdict is
`Exact(tranche, covered)` when `covering = 0` and `uncovered = 0`; otherwise
`All` when `total + covering + uncovered ≥ n_validators`; otherwise
`Pending(tranche + covering + uncovered)`. -/
theorem cover_no_shows_output (total covered covering uncovered : Nat)
    (tranche tranche_now needed_approvals n_validators : Nat) :
    (covering = 0 → uncovered = 0 →
      State.output (.CoverNoShows total covered covering uncovered) tranche tranche_now
        needed_approvals n_validators = .Exact tranche covered) ∧
    (¬(covering = 0 ∧ uncovered = 0) → total + covering + uncovered ≥ n_validators →
      State.output (.CoverNoShows total covered covering uncovered) tranche tranche_now
        needed_approvals n_validators = .All) ∧
    (¬(covering = 0 ∧ uncovered = 0) → total + covering + uncovered < n_validators →
      State.output (.CoverNoShows total covered covering uncovered) tranche tranche_now
        needed_approvals n_validators = .Pending (tranche + (covering + uncovered))) := by
  refine ⟨fun h1 h2 => ?_, fun h1 h2 => ?_, fun h1 h2 => ?_⟩
  · simp [State.output, h1, h2]
  · simp [State.output, h1, h2]
  · simp [State.output, h1, Nat.not_le.mpr h2]

/-- C2 witness: evaluation of the three branches at concrete states. -/
theorem cover_no_shows_output_witness :
    State.output (.CoverNoShows 5 2 0 0) 3 9 4 10 = .Exact 3 2 ∧
    State.output (.CoverNoShows 5 2 3 2) 3 9 4 10 = .All ∧
    State.output (.CoverNoShows 5 2 3 2) 3 9 4 11 = .Pending 8 :=
  ⟨(cover_no_shows_output 5 2 0 0 3 9 4 10).1 rfl rfl,
   (cover_no_shows_output 5 2 3 2 3 9 4 10).2.1 (by decide) (by decide),
   (cover_no_shows_output 5 2 3 2 3 9 4 11).2.2 (by decide) (by decide)⟩

/-- C1: `check_approval` with verdict `Exact(t, k)` returns `true` iff
`popcount(assignments_up_to(t) AND approvals) + k ≥ popcount(assignments_up_to(t))`;
in particular it returns `true` for every `k` when the mask has no set bits. -/
theorem check_approval_exact_iff (c : CandidateEntry) (a : ApprovalEntry) (t k : Nat)
    (hlen : a.assignments.length = c.approvals.length) :
    (check_approval c a (.Exact t k) = true ↔
      countOnes (bitAnd (a.assignments_up_to t) c.approvals) + k ≥
        countOnes (a.assignments_up_to t)) ∧
    (countOnes (a.assignments_up_to t) = 0 → check_approval c a (.Exact t k) = true) := by
  constructor
  · simp [check_approval]
  · intro h
    simp [check_approval, h]

/-- C1 witness: evaluation at a concrete candidate/approval pair with
equal-length bitfields. -/
theorem check_approval_exact_iff_witness :
    check_approval ⟨[true, false]⟩ ⟨[⟨0, [(0, 0), (1, 0)]⟩], [true, true]⟩
      (.Exact 0 1) = true :=
  ((check_approval_exact_iff ⟨[true, false]⟩ ⟨[⟨0, [(0, 0), (1, 0)]⟩], [true, true]⟩
    0 1 (by decide)).1).mpr (by decide)

/-- C3 counterexample: from `InitialCount(4, 1)` with `needed_approvals = 4`
(so `assignments ≥ needed_approvals` and `no_shows > 0`), at `tranche = 2`
and `tranche_now = 7` the source emits `Pending(2 + 1) = Pending(3)`, not
`Pending(tranche_now) = Pending(7)` as the claim states. -/
theorem initial_count_fallback_counterexample :
    4 ≥ 4 ∧ 0 < 1 ∧
    State.output (.InitialCount 4 1) 2 7 4 10 = .Pending 3 ∧
    State.output (.InitialCount 4 1) 2 7 4 10 ≠ .Pending 7 := by decide

/-- C3 (amended): from an `InitialCount` state with
`assignments ≥ needed_approvals` and `no_shows > 0`, the emitted verdict is
`Pending(tranche + no_shows)`. -/
theorem initial_count_fallback_output
    (assignments no_shows tranche tranche_now needed_approvals n_validators : Nat)
    (h1 : assignments ≥ needed_approvals) (h2 : 0 < no_shows) :
    State.output (.InitialCount assignments no_shows) tranche tranche_now
      needed_approvals n_validators = .Pending (tranche + no_shows) := by
  simp [State.output, h1, Nat.not_lt.mpr h1, Nat.pos_iff_ne_zero.mp h2]

/-- C3 (amended) witness: evaluation at a concrete fallback state. -/
theorem initial_count_fallback_output_witness :
    State.output (.InitialCount 5 2) 3 9 4 10 = .Pending 5 :=
  initial_count_fallback_output 5 2 3 9 4 10 (by decide) (by decide)

/-- C5: processing a tranche with zero new assignments in the `CoverNoShows`
regime leaves `total`, `covered` and `covering` unchanged and adds exactly
the freshly detected no-show count to `uncovered`. -/
theorem cover_no_shows_empty_tranche_frame
    (total covered covering uncovered m needed_approvals : Nat) :
    stepState (.CoverNoShows total covered covering uncovered) 0 m needed_approvals =
      .CoverNoShows total covered covering (m + uncovered) := by
  simp [stepState]

/-- C6: when no tranche of the approval entry has `tranche ≤ tranche_now`
(in particular when the tranche list is empty), `tranches_to_approve`
returns `Pending(tranche_now)`. -/
theorem tranches_to_approve_no_relevant_tranche
    (e : ApprovalEntry) (approvals : List Bool)
    (tranche_now block_tick no_show_duration needed_approvals : Nat)
    (h : ∀ t ∈ e.tranches, tranche_now < t.tranche) :
    tranches_to_approve e approvals tranche_now block_tick no_show_duration
      needed_approvals = .Pending tranche_now := by
  have htw : e.tranches.takeWhile (fun t => decide (t.tranche ≤ tranche_now)) = [] := by
    cases hts : e.tranches with
    | nil => rfl
    | cons hd tl =>
      have := h hd (by rw [hts]; exact List.mem_cons_self hd tl)
      simp [List.takeWhile_cons, Nat.not_le.mpr this]
  simp [tranches_to_approve, htw, walkAux]

/-- C6 witness: a concrete entry whose only tranche is in the future. -/
theorem tranches_to_approve_no_relevant_tranche_witness :
    tranches_to_approve ⟨[⟨5, [(0, 0)]⟩], [true, true]⟩ [true, true] 2 0 10 1 =
      .Pending 2 :=
  tranches_to_approve_no_relevant_tranche ⟨[⟨5, [(0, 0)]⟩], [true, true]⟩
    [true, true] 2 0 10 1 (by decide)

/-- Counting set bits never decreases when moving to an equal-length
bitfield with at least the same bits set. -/
theorem countOnes_le_of_pointwise (b1 b2 : List Bool)
    (hlen : b1.length = b2.length)
    (hle : ∀ i, b1.get? i = some true → b2.get? i = some true) :
    countOnes b1 ≤ countOnes b2 := by
  induction b1 generalizing b2 with
  | nil => exact Nat.zero_le _
  | cons x xs ih =>
    cases b2 with
    | nil => simp at hlen
    | cons y ys =>
      have hxy : x = true → y = true := by
        intro hx
        have := hle 0 (by simp [hx])
        simpa using this
      have htail : ∀ i, xs.get? i = some true → ys.get? i = some true := by
        intro i hi
        have := hle (i + 1) (by simpa using hi)
        simpa using this
      have hlen' : xs.length = ys.length := by simpa using hlen
      have := ih ys hlen' htail
      cases x with
      | false => simp [countOnes, List.count_cons] at this ⊢; omega
      | true =>
        have hy := hxy rfl
        subst hy
        simp [countOnes, List.count_cons] at this ⊢; omega

/-- Masking with a fixed mask preserves the pointwise bitfield order on the
popcount. -/
theorem countOnes_bitAnd_le_of_pointwise (m b1 b2 : List Bool)
    (hlen : b1.length = b2.length)
    (hle : ∀ i, b1.get? i = some true → b2.get? i = some true) :
    countOnes (bitAnd m b1) ≤ countOnes (bitAnd m b2) := by
  induction m generalizing b1 b2 with
  | nil => simp [bitAnd]
  | cons a ms ih =>
    cases b1 with
    | nil =>
      cases b2 with
      | nil => exact Nat.le_refl _
      | cons y ys => simp at hlen
    | cons x xs =>
      cases b2 with
      | nil => simp at hlen
      | cons y ys =>
        have hxy : x = true → y = true := by
          intro hx
          have := hle 0 (by simp [hx])
          simpa using this
        have htail : ∀ i, xs.get? i = some true → ys.get? i = some true := by
          intro i hi
          have := hle (i + 1) (by simpa using hi)
          simpa using this
        have hlen' : xs.length = ys.length := by simpa using hlen
        have hrec := ih xs ys hlen' htail
        simp only [bitAnd, List.zipWith_cons_cons, countOnes, List.count_cons] at hrec ⊢
        cases hax : a && x with
        | false =>
          cases hay : a && y <;> simp <;> omega
        | true =>
          have hx : x = true := by
            cases x
            · simp at hax
            · rfl
          have ha : a = true := by
            cases a
            · simp at hax
            · rfl
          have hy : y = true := hxy hx
          simp [ha, hy]
          omega

/-- C7: `check_approval` is monotone in the approval bitfield for verdicts
`All` and `Exact(t, k)`: for equal-length bitfields where the second has
every bit the first has, a `true` result is preserved. -/
theorem check_approval_monotone (c1 c2 : CandidateEntry) (a : ApprovalEntry) (t k : Nat)
    (hlen : c1.approvals.length = c2.approvals.length)
    (hle : ∀ i, c1.approvals.get? i = some true → c2.approvals.get? i = some true) :
    (check_approval c1 a .All = true → check_approval c2 a .All = true) ∧
    (check_approval c1 a (.Exact t k) = true → check_approval c2 a (.Exact t k) = true) := by
  constructor
  · intro h1
    have hcount := countOnes_le_of_pointwise c1.approvals c2.approvals hlen hle
    simp only [check_approval, decide_eq_true_eq] at h1 ⊢
    omega
  · intro h1
    have hcount := countOnes_bitAnd_le_of_pointwise (a.assignments_up_to t)
      c1.approvals c2.approvals hlen hle
    simp only [check_approval, decide_eq_true_eq, ge_iff_le] at h1 ⊢
    omega

/-- C7 witness: a `true` `Exact` result preserved under adding an approval
bit, at a concrete input. -/
theorem check_approval_monotone_witness :
    check_approval ⟨[true, true]⟩ ⟨[⟨0, [(0, 0), (1, 0)]⟩], [true, true]⟩
      (.Exact 0 1) = true :=
  (check_approval_monotone ⟨[true, false]⟩ ⟨[true, true]⟩
      ⟨[⟨0, [(0, 0), (1, 0)]⟩], [true, true]⟩ 0 1 (by decide)
      (by intro i hi; cases i with
          | zero => simpa using hi
          | succ n => cases n <;> simp_all)).2 (by decide)

/-- On a tranche list that is strictly ascending in `tranche`, taking the
prefix of tranches `≤ tranche_now` is the same as filtering them. -/
theorem takeWhile_eq_filter_of_ascending (l : List TrancheEntry) (tranche_now : Nat)
    (hsorted : l.Pairwise (fun a b => a.tranche < b.tranche)) :
    l.takeWhile (fun t => decide (t.tranche ≤ tranche_now)) =
      l.filter (fun t => decide (t.tranche ≤ tranche_now)) := by
  induction l with
  | nil => rfl
  | cons hd tl ih =>
    rcases List.pairwise_cons.mp hsorted with ⟨hhd, htl⟩
    by_cases hle : hd.tranche ≤ tranche_now
    · simp [List.takeWhile_cons, List.filter_cons, hle, ih htl]
    · have hnil : tl.filter (fun t => decide (t.tranche ≤ tranche_now)) = [] := by
        rw [List.filter_eq_nil]
        intro b hb
        have := hhd b hb
        simp
        omega
      simp [List.takeWhile_cons, List.filter_cons, hle, hnil]

/-- C9: `tranches_to_approve` depends only on the tranches at or before
`tranche_now`: two entries with strictly ascending tranche lists, the same
`n_validators`, and identical tranche entries at `tranche ≤ tranche_now`
receive the same verdict on identical remaining inputs. -/
theorem tranches_to_approve_depends_up_to_now
    (e1 e2 : ApprovalEntry) (approvals : List Bool)
    (tranche_now block_tick no_show_duration needed_approvals : Nat)
    (hs1 : e1.tranches.Pairwise (fun a b => a.tranche < b.tranche))
    (hs2 : e2.tranches.Pairwise (fun a b => a.tranche < b.tranche))
    (hnv : e1.n_validators = e2.n_validators)
    (heq : e1.tranches.filter (fun t => decide (t.tranche ≤ tranche_now)) =
           e2.tranches.filter (fun t => decide (t.tranche ≤ tranche_now))) :
    tranches_to_approve e1 approvals tranche_now block_tick no_show_duration
        needed_approvals =
      tranches_to_approve e2 approvals tranche_now block_tick no_show_duration
        needed_approvals := by
  unfold tranches_to_approve
  rw [takeWhile_eq_filter_of_ascending e1.tranches tranche_now hs1,
    takeWhile_eq_filter_of_ascending e2.tranches tranche_now hs2, heq, hnv]

/-- C9 witness: two concrete entries that differ only in a tranche beyond
`tranche_now` receive the same verdict. -/
theorem tranches_to_approve_depends_up_to_now_witness :
    tranches_to_approve ⟨[⟨0, [(0, 0)]⟩, ⟨5, [(1, 5)]⟩], [true, true, false]⟩
        [true, true, true] 2 0 10 1 =
      tranches_to_approve ⟨[⟨0, [(0, 0)]⟩, ⟨7, [(2, 7)]⟩], [true, false, true]⟩
        [true, true, true] 2 0 10 1 :=
  tranches_to_approve_depends_up_to_now
    ⟨[⟨0, [(0, 0)]⟩, ⟨5, [(1, 5)]⟩], [true, true, false]⟩
    ⟨[⟨0, [(0, 0)]⟩, ⟨7, [(2, 7)]⟩], [true, false, true]⟩
    [true, true, true] 2 0 10 1
    (by simp) (by simp) (by rfl) (by rfl)

/-- The invariant carried by the walk of `tranches_to_approve`: any
`CoverNoShows` state has at least one no-show left to cover. -/
def stateInv (s : State) : Prop :=
  match s with
  | .InitialCount _ _ => True
  | .CoverNoShows _ _ covering _ => 1 ≤ covering

/-- A step of the walk preserves the invariant on the resulting state
whenever that state's interim verdict is `Pending`. -/
theorem stepState_inv (s : State)
    (n_assignments no_shows needed_approvals tranche tranche_now n_validators u : Nat)
    (hs : stateInv s)
    (hpend : State.output (stepState s n_assignments no_shows needed_approvals)
        tranche tranche_now needed_approvals n_validators = .Pending u) :
    stateInv (stepState s n_assignments no_shows needed_approvals) := by
  cases s with
  | InitialCount total no_shows_so_far =>
    simp only [stepState]
    by_cases h1 : total + n_assignments ≥ needed_approvals
    · by_cases h2 : no_shows + no_shows_so_far = 0
      · simp [h1, h2, stateInv]
      · simp only [h1, h2, if_true, if_false, ite_true, ite_false]
        simp [stateInv]
        omega
    · simp [h1, stateInv]
  | CoverNoShows total covered covering uncovered =>
    simp only [stateInv] at hs
    by_cases h1 : n_assignments = 0
    · simp only [stepState, h1, ite_true]
      simpa [stateInv] using hs
    · by_cases h2 : covering = 1
      · simp only [stepState, h1, h2, ite_false, ite_true, if_neg, if_pos]
        simp only [stepState, h1, h2, ite_false, ite_true] at hpend
        simp only [State.output] at hpend
        by_cases h3 : no_shows + uncovered = 0
        · simp [h3] at hpend
        · simp [stateInv]
          omega
      · simp only [stepState, h1, h2, ite_false]
        simp [stateInv]
        omega

/-- Every state consumed by the walk satisfies the invariant, provided the
starting state does. -/
theorem walkAux_states_inv (tranches : List TrancheEntry) (approvals : List Bool)
    (tranche_now tick_now no_show_duration needed_approvals n_validators : Nat) :
    ∀ (state : Option State) (acc : Option RequiredTranches),
      (∀ s, state = some s → stateInv s) →
      ∀ s ∈ (walkAux tranches approvals tranche_now tick_now no_show_duration
          needed_approvals n_validators state acc).1, stateInv s := by
  induction tranches with
  | nil =>
    intro state acc hstate s hmem
    simp [walkAux] at hmem
  | cons t rest ih =>
    intro state acc hstate s hmem
    cases state with
    | none => simp [walkAux] at hmem
    | some s0 =>
      rw [walkAux] at hmem
      simp only [List.mem_cons] at hmem
      rcases hmem with rfl | hmem
      · exact hstate s rfl
      · revert hmem
        cases hout : State.output
            (stepState s0 t.assignments.length
              (noShowCount t approvals no_show_duration tick_now) needed_approvals)
            t.tranche tranche_now needed_approvals n_validators with
        | Exact e1 e2 =>
          intro hmem
          exact ih none (some (.Exact e1 e2)) (fun s1 hs1 => by simp at hs1) s hmem
        | All =>
          intro hmem
          exact ih none (some .All) (fun s1 hs1 => by simp at hs1) s hmem
        | Pending u =>
          intro hmem
          refine ih (some (stepState s0 t.assignments.length
              (noShowCount t approvals no_show_duration tick_now) needed_approvals))
            (some (.Pending u)) ?_ s hmem
          intro s1 hs1
          injection hs1 with hs1
          subst hs1
          exact stepState_inv s0 t.assignments.length
            (noShowCount t approvals no_show_duration tick_now) needed_approvals
            t.tranche tranche_now n_validators u (hstate s0 rfl) hout

/-- C10: in the walk performed by `tranches_to_approve`, every
`CoverNoShows` state consumed by an iteration has `covering ≥ 1`; hence in
the branch taken when the tranche is non-empty and `covering ≠ 1`, we have
`covering ≥ 2` and the unsigned subtraction `covering - 1` does not
underflow. -/
theorem cover_no_shows_covering_positive
    (e : ApprovalEntry) (approvals : List Bool)
    (tranche_now block_tick no_show_duration needed_approvals : Nat)
    (total covered covering uncovered : Nat)
    (hmem : State.CoverNoShows total covered covering uncovered ∈
      (walkAux (e.tranches.takeWhile (fun t => decide (t.tranche ≤ tranche_now)))
        approvals tranche_now (tranche_now + block_tick) no_show_duration
        needed_approvals e.n_validators (some (.InitialCount 0 0)) none).1) :
    1 ≤ covering ∧ (covering ≠ 1 → 2 ≤ covering ∧ covering - 1 + 1 = covering) := by
  have hinv := walkAux_states_inv
    (e.tranches.takeWhile (fun t => decide (t.tranche ≤ tranche_now)))
    approvals tranche_now (tranche_now + block_tick) no_show_duration
    needed_approvals e.n_validators (some (.InitialCount 0 0)) none
    (by intro s hs; injection hs with hs; subst hs; trivial)
    (State.CoverNoShows total covered covering uncovered) hmem
  simp only [stateInv] at hinv
  exact ⟨hinv, fun hne => by omega⟩

/-- C10 witness: the no-show-covering scenario from the source's tests
reaches the state `CoverNoShows(4, 0, 1, 0)`, consumed by the tranche-2
iteration. -/
theorem cover_no_shows_covering_positive_witness :
    1 ≤ 1 ∧ ((1 : Nat) ≠ 1 → 2 ≤ 1 ∧ 1 - 1 + 1 = 1) :=
  cover_no_shows_covering_positive
    ⟨[⟨0, [(0, 20), (1, 20)]⟩, ⟨1, [(2, 20), (3, 20)]⟩, ⟨2, [(4, 20), (5, 20)]⟩],
      [true, true, true, true, true, true, false, false]⟩
    [true, true, false, true, true, true, false, false] 11 20 10 4 4 0 1 0
    (by decide)

end ApprovalChecking
